import Mathlib

/-!
Shallow embedding of the scan-orchestration core of `use-a11y.ts` (a Vue
composable for continuous accessibility auditing), together with proofs about
its queue serialization, violation diffing, shadow-DOM locator, readiness gate,
error handling, instance registry and highlight overlay.

Modelling conventions:
* JavaScript strings are modelled as Lean `String`, but every operation the
  source performs on them (trim, split, slice, regex capture, substring test)
  is implemented here over the underlying `List Char`, mirroring the JS
  semantics for BMP text (one `Char` per UTF-16 unit).
* The DOM is a tree of elements; a shadow root is modelled by the element's
  `shadow` child list (an element with an attached, possibly populated shadow
  root has a non-nil `shadow`; an absent shadow root and an empty one behave
  identically in every code path modelled here, so they are identified).
* Asynchronous control flow is modelled by explicit state machines (the global
  run queue) or by explicit state passing; thrown errors by `Except`.
-/

namespace UseA11y

/-! ## JS string primitives -/

/-- Characters with leading and trailing whitespace removed; JS
`String.prototype.trim` on the character list. -/
def trimChars (cs : List Char) : List Char :=
  ((cs.dropWhile Char.isWhitespace).reverse.dropWhile Char.isWhitespace).reverse

/-- JS `s.trim()`. -/
def jsTrim (s : String) : String := ⟨trimChars s.data⟩

/-- JS `s.slice(0, n)`. -/
def jsSlice (s : String) (n : Nat) : String := ⟨s.data.take n⟩

/-- Split a character list at every occurrence of `sep`; JS `s.split(sep)` for a
single-character separator (an empty input yields `[""]`, adjacent separators
yield empty pieces). -/
def splitChars (sep : Char) : List Char → List (List Char)
  | [] => [[]]
  | c :: cs =>
    let r := splitChars sep cs
    if c = sep then [] :: r
    else
      match r with
      | [] => [[c]]
      | p :: ps => (c :: p) :: ps

/-- JS `s.split(sep)` for a single-character separator. -/
def jsSplit (s : String) (sep : Char) : List String :=
  (splitChars sep s.data).map (fun l => ⟨l⟩)

/-- Whether `cs` starts with `pre`. -/
def startsWithChars (pre cs : List Char) : Bool := cs.take pre.length == pre

/-- Whether `pat` occurs as a contiguous substring; JS `s.includes(pat)`. -/
def containsChars (pat : List Char) : List Char → Bool
  | [] => pat.isEmpty
  | c :: cs => startsWithChars pat (c :: cs) || containsChars pat cs

/-- JS `s.includes(pat)`. -/
def jsIncludes (s pat : String) : Bool := containsChars pat.data s.data

/-- Attempt to match the regex `pre([^stop]+)stop` anchored at the head of
`cs`, returning the capture group. -/
def captureAt (pre : List Char) (stop : Char) (cs : List Char) : Option (List Char) :=
  if startsWithChars pre cs then
    let rest := cs.drop pre.length
    let t := rest.takeWhile (fun c => c ≠ stop)
    if !t.isEmpty && decide (t.length < rest.length) then some t else none
  else none

/-- Leftmost match of the regex `pre([^stop]+)stop` over `cs`: the capture of
the first position at which the whole pattern matches, as a JS regex `match`
would return. -/
def firstMatch (pre : List Char) (stop : Char) : List Char → Option (List Char)
  | [] => none
  | c :: cs =>
    match captureAt pre stop (c :: cs) with
    | some t => some t
    | none => firstMatch pre stop cs

/-- JS `html.match(/pre([^stop]+)stop/)`, returning the first capture group. -/
def jsRegexCapture (html : String) (pre : String) (stop : Char) : Option String :=
  (firstMatch pre.data stop html.data).map (fun l => ⟨l⟩)

/-- JS `Array.prototype.join` with separator `sep`. -/
def joinSep (sep : String) : List String → String
  | [] => ""
  | [s] => s
  | s :: rest => s ++ sep ++ joinSep sep rest

/-! ## Violation records and the differ (`logViolations`, src lines 317-464)

axe-core's `Result.impact` is typed `ImpactValue | null`, so it is modelled as
`Option String`; a stored `ViolationLogEntry.impact` is a plain string. -/

/-- One reported node of an axe `Result` (`{ html, target }`). -/
structure ResultNode where
  html : String
  target : List String
deriving DecidableEq, Repr

/-- An axe-core violation `Result` as consumed by `logViolations`. -/
structure Result where
  id : String
  impact : Option String
  description : String
  help : String
  helpUrl : String
  nodes : List ResultNode
deriving DecidableEq, Repr

/-- The stored normalized record (`ViolationLogEntry`); the lazily resolved
`element` field is best-effort and never read by the differ, so it is omitted. -/
structure ViolationLogEntry where
  id : String
  impact : String
  description : String
  help : String
  helpUrl : String
  nodes : List ResultNode
deriving DecidableEq, Repr

/-- JS template-literal interpolation of an axe `impact` value: a present
string interpolates as itself and a null interpolates as the text `"null"`. -/
def interpolateImpact : Option String → String
  | some s => s
  | none => "null"

/-- JS `violation.impact || "unknown"`: null and the empty string are falsy. -/
def impactOrUnknown : Option String → String
  | some s => if s = "" then "unknown" else s
  | none => "unknown"

/-- The key template shared by both call shapes of `createViolationKey`:
`` `${id}:${impact}:${nodes.map(n => n.target.join(",").slice(0, 50)).join("|")}` ``. -/
def violationKeyOf (ruleId impactStr : String) (nodes : List ResultNode) : String :=
  ruleId ++ ":" ++ impactStr ++ ":"
    ++ joinSep "|" (nodes.map (fun n => jsSlice (joinSep "," n.target) 50))

/-- `createViolationKey` applied to a raw axe `Result` (src lines 317-320). -/
def createViolationKey (v : Result) : String :=
  violationKeyOf v.id (interpolateImpact v.impact) v.nodes

/-- `createViolationKey(v as Result)` applied to a stored `ViolationLogEntry`,
whose `impact` is already a plain (normalized) string. -/
def createViolationKeyEntry (e : ViolationLogEntry) : String :=
  violationKeyOf e.id e.impact e.nodes

/-- The normalization `violations.value = results.violations.map(...)`
performed at the top of `logViolations` (src lines 359-370). -/
def toLogEntry (v : Result) : ViolationLogEntry :=
  { id := v.id
    impact := impactOrUnknown v.impact
    description := v.description
    help := v.help
    helpUrl := v.helpUrl
    nodes := v.nodes }

/-- `previousKeys` of the subsequent-scan branch (src line 392). -/
def previousKeys (previousViolations : List ViolationLogEntry) : List String :=
  previousViolations.map createViolationKeyEntry

/-- `currentKeys` of the subsequent-scan branch (src line 393). -/
def currentKeys (results : List Result) : List String :=
  results.map createViolationKey

/-- `newViolations` (src lines 395-397): current violations whose key is not in
the stored previous key set. -/
def newViolations (previousViolations : List ViolationLogEntry) (results : List Result) :
    List Result :=
  results.filter (fun v => !(previousKeys previousViolations).contains (createViolationKey v))

/-- `resolvedViolations` (src lines 398-400): stored previous violations whose
key is not in the current key set. -/
def resolvedViolations (previousViolations : List ViolationLogEntry) (results : List Result) :
    List ViolationLogEntry :=
  previousViolations.filter
    (fun v => !(currentKeys results).contains (createViolationKeyEntry v))

/-- The observable result of one `logViolations` call: what is reported as new
and resolved, and the stored previous set afterwards. On the initial branch
(`isInitialScan || previousViolations.length === 0`) all current violations are
reported and nothing is reported resolved. -/
structure ReconcileOut where
  added : List Result
  removed : List ViolationLogEntry
  previous : List ViolationLogEntry
deriving DecidableEq, Repr

/-- The state transform of `logViolations` (src lines 357-464): normalize,
branch on initial-scan / empty-previous, diff by violation key, and store the
current set as the new previous set. -/
def logViolations (previousViolations : List ViolationLogEntry) (results : List Result)
    (isInitialScan : Bool) : ReconcileOut :=
  let cur := results.map toLogEntry
  if isInitialScan || previousViolations.isEmpty then
    { added := results, removed := [], previous := cur }
  else
    { added := newViolations previousViolations results
      removed := resolvedViolations previousViolations results
      previous := cur }

/-! ## The global run queue (`axeQueue` / `processAxeQueue`, src lines 214-237)

A small-step machine over the module-level state. Thunks are identified by
numbers. A drain-loop frame is an activation of `processAxeQueue` that passed
the re-entrancy guard; `some t` means the frame is currently awaiting thunk
`t`, `none` that it is between awaits. The type deliberately allows several
frames so that the theorem, not the type, shows the `isProcessingQueue` flag
keeps at most one alive. The ghost field `pushed` records every enqueued thunk
in submission order. -/

structure QState where
  axeQueue : List Nat
  isProcessingQueue : Bool
  loops : List (Option Nat)
  executed : List Nat
  pushed : List Nat
deriving DecidableEq, Repr

/-- The initial module-level state: empty queue, flag down, no drain active. -/
def initQ : QState := ⟨[], false, [], [], []⟩

/-- Events of the queue machine. `push` is `axeQueue.push(queuedRun)` inside
`runAxe`; `callDrain` is a call to `processAxeQueue()`; `dequeue i` is frame
`i` passing the while-guard and shifting the queue head; `finish i` is the
completion of the awaited thunk, including its own failure handling; `exitLoop
i` is frame `i` observing an empty queue, clearing the flag and returning. -/
inductive QAct where
  | push (t : Nat)
  | callDrain
  | dequeue (i : Nat)
  | finish (i : Nat)
  | exitLoop (i : Nat)
deriving DecidableEq, Repr

/-- One step of the queue machine. Steps whose guard does not hold leave the
state unchanged (they model program points that cannot fire). -/
def stepQ : QAct → QState → QState
  | .push t, s =>
    { s with axeQueue := s.axeQueue ++ [t], pushed := s.pushed ++ [t] }
  | .callDrain, s =>
    if s.isProcessingQueue || s.axeQueue.isEmpty then s
    else { s with isProcessingQueue := true, loops := s.loops ++ [none] }
  | .dequeue i, s =>
    match s.loops.get? i, s.axeQueue with
    | some none, t :: rest =>
      { s with loops := s.loops.set i (some t), axeQueue := rest }
    | _, _ => s
  | .finish i, s =>
    match s.loops.get? i with
    | some (some t) =>
      { s with loops := s.loops.set i none, executed := s.executed ++ [t] }
    | _ => s
  | .exitLoop i, s =>
    match s.loops.get? i with
    | some none =>
      if s.axeQueue.isEmpty then
        { s with loops := s.loops.eraseIdx i, isProcessingQueue := false }
      else s
    | _ => s

/-- Run the machine from the initial module state along a list of events. -/
def runQ (acts : List QAct) : QState := acts.foldl (fun s a => stepQ a s) initQ

/-- Thunks currently being awaited by some drain frame. -/
def inflight (s : QState) : List Nat := s.loops.filterMap id

/-- The serialization invariant: at most one drain frame is alive, the
`isProcessingQueue` flag is exactly "some frame is alive", and the executed
thunks followed by the in-flight thunk and the still-queued thunks are exactly
the enqueued thunks in submission order. -/
def QInv (s : QState) : Prop :=
  s.loops.length ≤ 1
    ∧ s.isProcessingQueue = !s.loops.isEmpty
    ∧ s.executed ++ inflight s ++ s.axeQueue = s.pushed

/-! ## Per-instance `runAxe` and the initial-scan guard (src lines 528-608)

Thunks are tagged with their `isInitialScan` flag. Because the global queue
serializes thunks (theorem on `QState`), a queued thunk runs atomically with
respect to other thunks, so its body is modelled as one state transform. -/

structure InstanceState where
  hasRunInitialScan : Bool
  isAxeRunning : Bool
  axeQueue : List Bool
  executedScans : List Bool
deriving DecidableEq, Repr

/-- A fresh instance with empty module-level queue. -/
def instInit : InstanceState := ⟨false, false, [], []⟩

/-- The synchronous part of `runAxe(isInitialScan)`: the enabled guard, the
request-time initial-scan guard (src lines 529-534), and the enqueue. -/
def runAxeRequest (enabled isInitialScan : Bool) (s : InstanceState) : InstanceState :=
  if !enabled then s
  else if isInitialScan && s.hasRunInitialScan then s
  else { s with axeQueue := s.axeQueue ++ [isInitialScan] }

/-- One queued thunk executed to completion by the drain, with a succeeding
scanner: the execution-time `isAxeRunning` guard (src lines 539-541), the scan
itself, and `hasRunInitialScan = true` on a successful initial scan (src lines
578-579). -/
def runQueuedThunk (isInitialScan : Bool) (s : InstanceState) : InstanceState :=
  if s.isAxeRunning then s
  else
    { s with
      executedScans := s.executedScans ++ [isInitialScan]
      hasRunInitialScan := s.hasRunInitialScan || isInitialScan }

/-- Drain helper: run the listed thunks in FIFO order, one at a time. -/
def drainThunks : List Bool → InstanceState → InstanceState
  | [], st => st
  | t :: ts, st => drainThunks ts (runQueuedThunk t st)

/-- `processAxeQueue` for this instance's queued thunks: empties the queue,
executing each thunk to completion in FIFO order. -/
def drainInstanceQueue (s : InstanceState) : InstanceState :=
  drainThunks s.axeQueue { s with axeQueue := [] }

/-- The scenario of the initial-scan idempotence claim: `runAxe(true)` is
called twice before any queued thunk has run (hence before the first initial
scan completes), then the queue drains. -/
def doubleInitialScanScenario : InstanceState :=
  drainInstanceQueue (runAxeRequest true true (runAxeRequest true true instInit))

/-- The same scenario with a single `runAxe(true)` call. -/
def singleInitialScanScenario : InstanceState :=
  drainInstanceQueue (runAxeRequest true true instInit)

/-! ## Error handling inside a queued thunk (src lines 536-603) -/

/-- A JS thrown value, as far as the catch block inspects it: whether it is an
`Error` instance, and its message. -/
structure JsError where
  isErrorInstance : Bool
  message : String
deriving DecidableEq, Repr

/-- The catch block's busy test (src line 588):
`error instanceof Error && error.message.includes("Axe is already running")`. -/
def isAxeBusyError (e : JsError) : Bool :=
  e.isErrorInstance && jsIncludes e.message "Axe is already running"

/-- How a queued thunk terminated, as observable from outside. -/
inductive ScanOutcome where
  | completed
  | skippedGuard
  | retryScheduled (delayMs : Nat)
  | silentSkip
  | loggedError (e : JsError)
deriving DecidableEq, Repr

/-- The two flags cleared by the thunk's `finally` block. -/
structure RunFlags where
  isRunning : Bool
  isAxeRunning : Bool
deriving DecidableEq, Repr

/-- The body of `queuedRun` (src lines 537-603), with the scanner call
abstracted as an arbitrary `Except` outcome. The early `isAxeRunning` guard
returns before the `try`, leaving the flags untouched; otherwise the `try`
block runs the scanner, the `catch` block maps a busy error to a silent skip
(non-initial) or to a 1000 ms backoff retry (initial) and logs and swallows
every other error, and the `finally` block always clears both flags. The
codomain is `Except` so that "the thunk never rejects" is a theorem about the
definition rather than a consequence of its type. -/
def queuedRun (g : RunFlags) (isInitialScan : Bool) (scanner : Except JsError Unit) :
    Except JsError (ScanOutcome × RunFlags) :=
  if g.isAxeRunning then .ok (.skippedGuard, g)
  else
    let afterCatch : Except JsError ScanOutcome :=
      match scanner.map (fun _ => ScanOutcome.completed) with
      | .ok o => .ok o
      | .error e =>
        if isAxeBusyError e then
          if isInitialScan then .ok (.retryScheduled 1000) else .ok .silentSkip
        else .ok (.loggedError e)
    afterCatch.map (fun o => (o, ⟨false, false⟩))

/-- The drain's own guard around `await nextRun()` (src lines 227-233): an
error escaping a thunk is logged (`console.error`) and draining continues. -/
def processQueueStep (thunk : Except JsError (ScanOutcome × RunFlags)) :
    Except JsError (Option (ScanOutcome × RunFlags)) :=
  match thunk with
  | .ok v => .ok (some v)
  | .error _ => .ok none

/-! ## Instance registry cleanup (src lines 744-758) -/

/-- The module-level coordination state touched by `cleanup`: the registry of
live instance handles (`axeInstances`, a set of symbols, modelled by a
duplicate-free list of numbers) and the global running flag. -/
structure CoordState where
  axeInstances : List Nat
  isAxeRunning : Bool
deriving DecidableEq, Repr

/-- `cleanup()` as far as it touches the coordination state: delete this
instance's handle, then reset the global flag if the registry became empty. -/
def cleanup (instanceId : Nat) (s : CoordState) : CoordState :=
  let s' : CoordState :=
    { s with axeInstances := s.axeInstances.filter (fun h => h != instanceId) }
  if s'.axeInstances.isEmpty then { s' with isAxeRunning := false } else s'

/-! ## Highlight overlay (src lines 284-315) -/

/-- A viewport bounding box as returned by `getBoundingClientRect`. -/
structure Rect where
  top : Int
  left : Int
  width : Int
  height : Int
deriving DecidableEq, Repr

/-- An overlay div as styled by `highlightElement`: fixed position at the
element's bounding box, `pointer-events: none`, `z-index: 10000`. `nodeId`
models DOM node identity. -/
structure OverlayNode where
  nodeId : Nat
  rect : Rect
  pointerEventsNone : Bool
  fixedPosition : Bool
  zIndex : Nat
deriving DecidableEq, Repr

/-- The process-wide overlay state: the overlay nodes currently attached to the
document body, the module-level `highlightedElement` singleton reference (by
node identity), and a counter providing fresh node identities. -/
structure HighlightState where
  overlayNodes : List OverlayNode
  highlightedElement : Option Nat
  nextNodeId : Nat
deriving DecidableEq, Repr

/-- `removeHighlight` (src lines 310-315): if the singleton reference is set,
remove that node from the document and clear the reference; otherwise no-op. -/
def removeHighlight (s : HighlightState) : HighlightState :=
  match s.highlightedElement with
  | some h =>
    { s with
      overlayNodes := s.overlayNodes.filter (fun o => o.nodeId != h)
      highlightedElement := none }
  | none => s

/-- The overlay node built by `highlightElement` for a bounding box. -/
def mkOverlay (nid : Nat) (rect : Rect) : OverlayNode :=
  { nodeId := nid, rect := rect, pointerEventsNone := true, fixedPosition := true
    zIndex := 10000 }

/-- `highlightElement` (src lines 284-307): no-op when highlighting is
disabled; otherwise first `removeHighlight()`, then append a fresh overlay at
the element's current bounding box and point the singleton reference at it. -/
def highlightElement (enableHighlighting : Bool) (rect : Rect) (s : HighlightState) :
    HighlightState :=
  if !enableHighlighting then s
  else
    let s' := removeHighlight s
    { overlayNodes := s'.overlayNodes ++ [mkOverlay s'.nextNodeId rect]
      highlightedElement := some s'.nextNodeId
      nextNodeId := s'.nextNodeId + 1 }

/-- Well-formedness of the overlay state: the overlay nodes attached to the
document are exactly the one the singleton reference points at (in particular
there is at most one). Holds for the pristine document and, by the theorem
below, is preserved by both operations. -/
def HighlightWF (s : HighlightState) : Prop :=
  s.overlayNodes.map (fun o => o.nodeId) = s.highlightedElement.toList

/-! ## The DOM model -/

/-- Static data of one element: tag, the attributes the locator and the
readiness check inspect, and the element's directly-owned text. -/
structure ElemData where
  tag : String
  idAttr : Option String
  classes : List String
  role : Option String
  ariaLabel : Option String
  tabindex : Option String
  text : String
deriving DecidableEq, Repr

mutual

/-- An element: its data, the child list of its shadow root (nil when none is
attached or it is empty — both behave identically in the modelled code paths),
and its light-DOM children. -/
inductive Elem where
  | node (data : ElemData) (shadow : ElemList) (children : ElemList)

/-- A list of elements (mutually inductive with `Elem`). -/
inductive ElemList where
  | nil
  | cons (e : Elem) (es : ElemList)

end

def Elem.data : Elem → ElemData
  | .node d _ _ => d

def Elem.shadow : Elem → ElemList
  | .node _ sh _ => sh

def Elem.children : Elem → ElemList
  | .node _ _ ch => ch

def ElemList.isNil : ElemList → Bool
  | .nil => true
  | .cons _ _ => false

def ElemList.toList : ElemList → List Elem
  | .nil => []
  | .cons e es => e :: es.toList

mutual

/-- Total number of element nodes in the tree (shadow trees included). -/
def Elem.size : Elem → Nat
  | .node _ sh ch => 1 + sh.sizeL + ch.sizeL

def ElemList.sizeL : ElemList → Nat
  | .nil => 0
  | .cons e es => e.size + es.sizeL

end

mutual

/-- The light-DOM descendants of an element in document (pre-)order: what
`element.querySelectorAll("*")` returns. Shadow trees are not pierced. -/
def Elem.descendants : Elem → List Elem
  | .node _ _ ch => ch.descList

/-- Each listed element followed by its light-DOM descendants: what
`shadowRoot.querySelectorAll("*")` returns for a shadow root with these
children. -/
def ElemList.descList : ElemList → List Elem
  | .nil => []
  | .cons e es => e :: e.descendants ++ es.descList

end

mutual

/-- `element.textContent` (light DOM only; directly-owned text first). -/
def Elem.textContent : Elem → String
  | .node d _ ch => d.text ++ ch.textContentL

def ElemList.textContentL : ElemList → String
  | .nil => ""
  | .cons e es => e.textContent ++ es.textContentL

end

/-! ## The shadow-boundary locator (src lines 113-212)

`findByHtmlContent` receives the search root as the candidate list its
`querySelector` calls range over: the root's tree in document order, excluding
the root itself (for an element or document root) or the shadow tree (for a
shadow root). CSS class selectors built by joining on "." are modelled by
all-of-class-list matching; the source's unfiltered join can produce an
invalid selector for class attributes with leading, trailing or doubled
spaces, a case no theorem below exercises. -/

def matchesId (v : String) (e : Elem) : Bool := e.data.idAttr == some v

def matchesAriaLabel (v : String) (e : Elem) : Bool := e.data.ariaLabel == some v

def matchesRole (r : String) (e : Elem) : Bool := e.data.role == some r

def matchesClassList (cs : List String) (e : Elem) : Bool :=
  cs.all (fun c => e.data.classes.contains c)

/-- `htmlContent.match(/id="([^"]+)"/)` (src line 156). -/
def extractIdAttr (html : String) : Option String := jsRegexCapture html "id=\"" '"'

/-- `htmlContent.match(/class="([^"]+)"/)` (src line 157). -/
def extractClassAttr (html : String) : Option String := jsRegexCapture html "class=\"" '"'

/-- `htmlContent.match(/role="([^"]+)"/)` (src line 158). -/
def extractRoleAttr (html : String) : Option String := jsRegexCapture html "role=\"" '"'

/-- `htmlContent.match(/aria-label="([^"]+)"/)` (src line 159). -/
def extractAriaLabelAttr (html : String) : Option String :=
  jsRegexCapture html "aria-label=\"" '"'

/-- `htmlContent.match(/>([^<]+)</)` (src line 160). -/
def extractTextContent (html : String) : Option String := jsRegexCapture html ">" '<'

/-- `findByHtmlContent` (src lines 151-212), translated clause by clause from
the early-return chain: id, aria-label, role plus class list, role alone,
non-empty class list alone, then text content of more than 3 characters. -/
def findByHtmlContent (htmlContent : String) (cands : List Elem) : Option Elem :=
  let idMatch := extractIdAttr htmlContent
  let classMatch := extractClassAttr htmlContent
  let roleMatch := extractRoleAttr htmlContent
  let ariaLabelMatch := extractAriaLabelAttr htmlContent
  let textContentMatch := extractTextContent htmlContent
  match idMatch.bind (fun v => cands.find? (matchesId v)) with
  | some e => some e
  | none =>
  match ariaLabelMatch.bind (fun v => cands.find? (matchesAriaLabel v)) with
  | some e => some e
  | none =>
  match
    (match roleMatch, classMatch with
     | some r, some c =>
       cands.find? (fun e => matchesRole r e && matchesClassList (jsSplit c ' ') e)
     | _, _ => none) with
  | some e => some e
  | none =>
  match roleMatch.bind (fun r => cands.find? (matchesRole r)) with
  | some e => some e
  | none =>
  match
    (match classMatch with
     | some c =>
       let classes := (jsSplit c ' ').filter (fun s => s.length > 0)
       if classes.isEmpty then none else cands.find? (matchesClassList classes)
     | none => none) with
  | some e => some e
  | none =>
    match textContentMatch with
    | some raw =>
      let text := jsTrim raw
      if text.length > 3 then
        cands.find? (fun e => jsTrim e.textContent == text)
      else none
    | none => none

/-- `searchAllShadowRoots` (src lines 122-145): if the node has a shadow root,
search it with `findByHtmlContent`, then recurse into every element of the
shadow tree; afterwards recurse into the light children. The recursion depth
is bounded by the strictly decreasing subtree size, so a fuel argument of the
node's size is exact (theorem `searchShadowFuel_adequate`); fuel exhaustion
(never reached from adequate fuel) yields `none`. -/
def searchShadowFuel : Nat → String → Elem → Option Elem
  | 0, _, _ => none
  | fuel + 1, htmlContent, node =>
    let fromShadow :=
      if node.shadow.isNil then none
      else
        match findByHtmlContent htmlContent node.shadow.descList with
        | some e => some e
        | none => node.shadow.descList.findSome? (fun e => searchShadowFuel fuel htmlContent e)
    match fromShadow with
    | some e => some e
    | none => node.children.toList.findSome? (fun e => searchShadowFuel fuel htmlContent e)

/-- `findByHtmlContentInAllShadowRoots` (src lines 113-148): first the main
tree under the root, then the recursive shadow-root search. -/
def findByHtmlContentInAllShadowRoots (htmlContent : String) (root : Elem) : Option Elem :=
  match findByHtmlContent htmlContent root.descendants with
  | some e => some e
  | none => searchShadowFuel root.size htmlContent root

/-- The candidate lists of the shadow boundaries `searchShadowFuel` visits, in
visit order: the node's own shadow tree, then (recursively) the boundaries
reachable from each element of that shadow tree, then the boundaries reachable
from each light child. -/
def shadowBoundariesFuel : Nat → Elem → List (List Elem)
  | 0, _ => []
  | fuel + 1, node =>
    (if node.shadow.isNil then []
     else node.shadow.descList ::
       (node.shadow.descList.map (shadowBoundariesFuel fuel)).flatten)
    ++ (node.children.toList.map (shadowBoundariesFuel fuel)).flatten

/-- The shadow boundaries reachable from `node`, in the code's visit order. -/
def nodeBoundaries (node : Elem) : List (List Elem) :=
  shadowBoundariesFuel node.size node

/-! ## The attribute-major locator the claim describes

The claim (and spec section 4.1) state that EACH extracted attribute is
matched against the root and every nested boundary before the NEXT attribute
is tried. The following definitions follow those words, to be compared with
the source-translated locator above. -/

/-- The six structural-match strategies in the claimed priority order. -/
def tryIdStrategy (html : String) (cands : List Elem) : Option Elem :=
  (extractIdAttr html).bind (fun v => cands.find? (matchesId v))

def tryAriaLabelStrategy (html : String) (cands : List Elem) : Option Elem :=
  (extractAriaLabelAttr html).bind (fun v => cands.find? (matchesAriaLabel v))

def tryRoleClassStrategy (html : String) (cands : List Elem) : Option Elem :=
  match extractRoleAttr html, extractClassAttr html with
  | some r, some c =>
    cands.find? (fun e => matchesRole r e && matchesClassList (jsSplit c ' ') e)
  | _, _ => none

def tryRoleStrategy (html : String) (cands : List Elem) : Option Elem :=
  (extractRoleAttr html).bind (fun r => cands.find? (matchesRole r))

def tryClassStrategy (html : String) (cands : List Elem) : Option Elem :=
  match extractClassAttr html with
  | some c =>
    let classes := (jsSplit c ' ').filter (fun s => s.length > 0)
    if classes.isEmpty then none else cands.find? (matchesClassList classes)
  | none => none

def tryTextStrategy (html : String) (cands : List Elem) : Option Elem :=
  (extractTextContent html).bind (fun raw =>
    let text := jsTrim raw
    if text.length > 3 then cands.find? (fun e => jsTrim e.textContent == text)
    else none)

/-- The priority list: id, aria-label, role + class list, role, class list,
text content longer than 3 characters. -/
def priorityStrategies : List (String → List Elem → Option Elem) :=
  [tryIdStrategy, tryAriaLabelStrategy, tryRoleClassStrategy, tryRoleStrategy,
   tryClassStrategy, tryTextStrategy]

mutual

/-- Every nested encapsulated boundary reachable from an element, depth-first:
its own shadow tree (when present), then boundaries inside the shadow tree,
then boundaries under its light children. Follows the claim's words. -/
def Elem.specBoundaries : Elem → List (List Elem)
  | .node _ sh ch =>
    (if sh.isNil then [] else [sh.descList]) ++ sh.specBoundariesL ++ ch.specBoundariesL

def ElemList.specBoundariesL : ElemList → List (List Elem)
  | .nil => []
  | .cons e es => e.specBoundaries ++ es.specBoundariesL

end

/-- The locator behaviour the claim describes (attribute-major order): each
strategy, in priority order, is matched against the given root and then every
nested boundary reachable from it depth-first, before falling through to the
next strategy. -/
def specAttributeMajorLocate (html : String) (root : Elem) : Option Elem :=
  priorityStrategies.findSome?
    (fun strat => (root.descendants :: root.specBoundaries).findSome?
      (fun b => strat html b))

/-- Inner element of the locator-order example: carries the id attribute the
markup fragment mentions, and lives inside a shadow boundary. -/
def exInner : Elem :=
  .node ⟨"span", some "x", [], none, none, none, ""⟩ .nil .nil

/-- Shadow host of the locator-order example: a light-DOM element carrying the
class the markup fragment mentions, hosting `exInner` in its shadow tree. -/
def exHost : Elem :=
  .node ⟨"div", none, ["c"], none, none, none, ""⟩ (.cons exInner .nil) .nil

/-- Search root of the locator-order example: `exHost` is its only child. -/
def exRoot : Elem :=
  .node ⟨"main", none, [], none, none, none, ""⟩ .nil (.cons exHost .nil)

/-- The serialized markup fragment of the locator-order example: it mentions
both an id (matching only the shadow element) and a class (matching only the
light-DOM host). -/
def exHtml : String := "<div id=\"x\" class=\"c\">hi</div>"

/-! ## The readiness gate (src lines 467-525) -/

/-- The fixed interactive/semantic allow-list of `hasContentReady` (src lines
471-473): `button, input, a, img, canvas, video, audio, [role], [aria-label],
[tabindex]`. -/
def meaningfulElement (e : Elem) : Bool :=
  ["button", "input", "a", "img", "canvas", "video", "audio"].contains e.data.tag
    || e.data.role.isSome || e.data.ariaLabel.isSome || e.data.tabindex.isSome

/-- `hasContentReady` (src lines 467-489): disabled gate is always ready;
otherwise at least one allow-listed descendant, or trimmed text content longer
than 10 characters, or some descendant with a non-empty shadow root. -/
def hasContentReady (waitForContent : Bool) (targetElement : Elem) : Bool :=
  if !waitForContent then true
  else if (targetElement.descendants.filter meaningfulElement).length > 0 then true
  else if (jsTrim targetElement.textContent).length > 10 then true
  else if targetElement.descendants.any (fun el => !el.shadow.isNil) then true
  else false

/-- The readiness condition as the claim words it: an allow-list descendant,
or trimmed text content exceeding 10 characters, or a descendant exposing
non-empty nested encapsulated content. -/
def specContentReady (targetElement : Elem) : Prop :=
  (∃ e ∈ targetElement.descendants, meaningfulElement e = true)
    ∨ (jsTrim targetElement.textContent).length > 10
    ∨ (∃ e ∈ targetElement.descendants, e.shadow.isNil = false)

/-- The `checkContent` polling loop of `waitForContentReadiness` (src lines
501-523): sample readiness now; if not ready and the deadline has passed, warn
and resolve `false`; otherwise re-check after 100 ms. `ready t` abstracts
`hasContentReady(targetElement)` evaluated `t` milliseconds after the start
(the DOM may change between polls). The result pairs the resolved value with
whether the timeout warning was logged. -/
def checkContent (ready : Nat → Bool) (maxWaitTime elapsed : Nat) : Bool × Bool :=
  if ready elapsed then (true, false)
  else if maxWaitTime ≤ elapsed then (false, true)
  else checkContent ready maxWaitTime (elapsed + 100)
termination_by maxWaitTime - elapsed
decreasing_by omega

/-- `waitForContentReadiness` (src lines 492-525): resolves `true` at once
when the gate is disabled, otherwise runs the polling loop from elapsed 0,
with `maxWaitTime` defaulting to 5000 ms. -/
def waitForContentReadiness (waitForContent : Bool) (ready : Nat → Bool)
    (maxWaitTime : Nat := 5000) : Bool × Bool :=
  if !waitForContent then (true, false) else checkContent ready maxWaitTime 0

/-- The number of the last 100 ms polling step at which the loop can still
sample: the first `k` with `100 * k ≥ maxWaitTime`. -/
def lastPollStep (maxWaitTime : Nat) : Nat := (maxWaitTime + 99) / 100

end UseA11y

/-! ## Supporting lemmas -/

namespace UseA11y

theorem string_contains_of_mem {l : List String} {a : String} (h : a ∈ l) :
    l.contains a = true :=
  List.elem_eq_true_of_mem h

theorem string_contains_eq_false_of_not_mem {l : List String} {a : String} (h : a ∉ l) :
    l.contains a = false := by
  simpa using h

/-- Key stability under normalization: when the raw impact is a present,
non-empty string, the stored entry's key equals the raw result's key. -/
theorem createViolationKeyEntry_toLogEntry (v : Result) (h : v.impact.getD "" ≠ "") :
    createViolationKeyEntry (toLogEntry v) = createViolationKey v := by
  cases hv : v.impact with
  | none => simp [hv] at h
  | some s =>
    have hs : s ≠ "" := by simpa [hv] using h
    simp [createViolationKeyEntry, toLogEntry, createViolationKey, impactOrUnknown,
      interpolateImpact, hv, hs]

theorem logViolations_previous (prev : List ViolationLogEntry) (results : List Result)
    (b : Bool) : (logViolations prev results b).previous = results.map toLogEntry := by
  unfold logViolations
  split <;> rfl

end UseA11y

/-! ## C4 -/

namespace UseA11y

/-- C4 counterexample: for a violation whose `impact` is null, reconciling the
same input twice does NOT produce empty added/removed the second time — the
stored entry's impact was normalized to "unknown" while the raw key
interpolates the null as "null", so the keys never match. -/
theorem reconcile_second_call_counterexample :
    (logViolations
        (logViolations [] [⟨"rule", none, "d", "h", "u", [⟨"<div>", ["a"]⟩]⟩] false).previous
        [⟨"rule", none, "d", "h", "u", [⟨"<div>", ["a"]⟩]⟩] false).added ≠ [] := by decide

/-- C4 (amended): after every `logViolations` call the current set becomes the
stored previous set, and — provided every violation carries a present,
non-empty impact — reconciling the same input again produces empty added and
removed sets. -/
theorem reconcile_stateful_idempotent :
    (∀ (prev : List ViolationLogEntry) (results : List Result) (b : Bool),
        (logViolations prev results b).previous = results.map toLogEntry)
    ∧ (∀ (prev : List ViolationLogEntry) (results : List Result) (b : Bool),
        (∀ v ∈ results, v.impact.getD "" ≠ "") →
          (logViolations (logViolations prev results b).previous results false).added = []
          ∧ (logViolations (logViolations prev results b).previous results false).removed
              = []) := by
  refine ⟨logViolations_previous, ?_⟩
  intro prev results b h
  rw [logViolations_previous]
  cases results with
  | nil => exact ⟨rfl, rfl⟩
  | cons r rs =>
    have hkeys : previousKeys ((r :: rs).map toLogEntry) = currentKeys (r :: rs) := by
      simp only [previousKeys, currentKeys, List.map_map]
      exact List.map_congr_left (fun v hv => createViolationKeyEntry_toLogEntry v (h v hv))
    constructor
    · show (logViolations ((r :: rs).map toLogEntry) (r :: rs) false).added = []
      unfold logViolations
      simp only [Bool.false_or, List.isEmpty_eq_true, List.map_eq_nil_iff,
        reduceCtorEq, if_neg, List.cons_ne_self]
      rw [if_neg (by simp)]
      simp only [newViolations, hkeys]
      apply List.filter_eq_nil_iff.mpr
      intro v hv
      have : (currentKeys (r :: rs)).contains (createViolationKey v) = true :=
        string_contains_of_mem (by
          unfold currentKeys
          exact List.mem_map_of_mem createViolationKey hv)
      simp only [this, Bool.not_true, Bool.false_eq_true, not_false_eq_true]
    · show (logViolations ((r :: rs).map toLogEntry) (r :: rs) false).removed = []
      unfold logViolations
      rw [if_neg (by simp)]
      simp only [resolvedViolations]
      apply List.filter_eq_nil_iff.mpr
      intro p hp
      rcases List.mem_map.mp hp with ⟨v, hv, rfl⟩
      have hk : createViolationKeyEntry (toLogEntry v) = createViolationKey v :=
        createViolationKeyEntry_toLogEntry v (h v hv)
      have : (currentKeys (r :: rs)).contains (createViolationKeyEntry (toLogEntry v))
          = true := by
        rw [hk]
        exact string_contains_of_mem (by
          unfold currentKeys
          exact List.mem_map_of_mem createViolationKey hv)
      simp only [this, Bool.not_true, Bool.false_eq_true, not_false_eq_true]

/-- Witness for the amended C4 theorem at a concrete input. -/
theorem reconcile_stateful_idempotent_witness :
    (logViolations [] [⟨"r", some "serious", "d", "h", "u", [⟨"<i>", ["t"]⟩]⟩] false).previous
        = [⟨"r", some "serious", "d", "h", "u", [⟨"<i>", ["t"]⟩]⟩].map toLogEntry
    ∧ (logViolations
          (logViolations [] [⟨"r", some "serious", "d", "h", "u", [⟨"<i>", ["t"]⟩]⟩]
            false).previous
          [⟨"r", some "serious", "d", "h", "u", [⟨"<i>", ["t"]⟩]⟩] false).added = [] :=
  ⟨reconcile_stateful_idempotent.1 [] _ false,
   (reconcile_stateful_idempotent.2 [] _ false (by decide)).1⟩

end UseA11y

/-! ## C3 -/

namespace UseA11y

/-- C3 counterexample: with scan A producing {X, Y} and scan B producing
{Y, Z}, all three distinct by violation key, the reconciliation of scan B does
NOT compute added = {Z} when Y's impact is null: Y's stored key (impact
normalized to "unknown") differs from Y's raw key (null interpolated as
"null"), so Y is reported as new again. -/
theorem diff_correctness_counterexample :
    createViolationKey ⟨"r1", some "serious", "", "", "", [⟨"", ["t1"]⟩]⟩
        ≠ createViolationKey ⟨"r2", none, "", "", "", [⟨"", ["t2"]⟩]⟩
    ∧ createViolationKey ⟨"r1", some "serious", "", "", "", [⟨"", ["t1"]⟩]⟩
        ≠ createViolationKey ⟨"r3", some "minor", "", "", "", [⟨"", ["t3"]⟩]⟩
    ∧ createViolationKey ⟨"r2", none, "", "", "", [⟨"", ["t2"]⟩]⟩
        ≠ createViolationKey ⟨"r3", some "minor", "", "", "", [⟨"", ["t3"]⟩]⟩
    ∧ (logViolations
          (logViolations []
            [⟨"r1", some "serious", "", "", "", [⟨"", ["t1"]⟩]⟩,
             ⟨"r2", none, "", "", "", [⟨"", ["t2"]⟩]⟩] true).previous
          [⟨"r2", none, "", "", "", [⟨"", ["t2"]⟩]⟩,
           ⟨"r3", some "minor", "", "", "", [⟨"", ["t3"]⟩]⟩] false).added
        ≠ [⟨"r3", some "minor", "", "", "", [⟨"", ["t3"]⟩]⟩] := by decide

/-- C3 (amended): for consecutive non-initial scans A = {X, Y} then B = {Y, Z},
distinct by violation key and with every impact a present non-empty value, the
reconciliation of B computes added = {Z} and removed = {X} (as stored
entries), the difference being taken by key against the stored previous set. -/
theorem diff_correctness_amended (X Y Z : Result)
    (hX : X.impact.getD "" ≠ "") (hY : Y.impact.getD "" ≠ "")
    (hXY : createViolationKey X ≠ createViolationKey Y)
    (hXZ : createViolationKey X ≠ createViolationKey Z)
    (hYZ : createViolationKey Y ≠ createViolationKey Z) :
    (logViolations (logViolations [] [X, Y] true).previous [Y, Z] false).added = [Z]
    ∧ (logViolations (logViolations [] [X, Y] true).previous [Y, Z] false).removed
        = [toLogEntry X] := by
  have hprev : (logViolations [] [X, Y] true).previous = [toLogEntry X, toLogEntry Y] := by
    rw [logViolations_previous]; rfl
  rw [hprev]
  have hkX := createViolationKeyEntry_toLogEntry X hX
  have hkY := createViolationKeyEntry_toLogEntry Y hY
  have eYX : (createViolationKey Y == createViolationKey X) = false :=
    beq_eq_false_iff_ne.mpr (Ne.symm hXY)
  have eYY : (createViolationKey Y == createViolationKey Y) = true := beq_self_eq_true _
  have eZX : (createViolationKey Z == createViolationKey X) = false :=
    beq_eq_false_iff_ne.mpr (Ne.symm hXZ)
  have eZY : (createViolationKey Z == createViolationKey Y) = false :=
    beq_eq_false_iff_ne.mpr (Ne.symm hYZ)
  have eXY : (createViolationKey X == createViolationKey Y) = false :=
    beq_eq_false_iff_ne.mpr hXY
  have eXZ : (createViolationKey X == createViolationKey Z) = false :=
    beq_eq_false_iff_ne.mpr hXZ
  constructor
  · show (logViolations [toLogEntry X, toLogEntry Y] [Y, Z] false).added = [Z]
    unfold logViolations
    rw [if_neg (by simp)]
    simp only [newViolations, previousKeys, List.map_cons, List.map_nil, hkX, hkY]
    simp [List.filter, List.contains, List.elem, eYX, eYY, eZX, eZY]
  · show (logViolations [toLogEntry X, toLogEntry Y] [Y, Z] false).removed = [toLogEntry X]
    unfold logViolations
    rw [if_neg (by simp)]
    simp only [resolvedViolations, currentKeys, List.map_cons, List.map_nil]
    simp [List.filter, List.contains, List.elem, hkX, hkY, eXY, eXZ, eYY]

/-- Witness for the amended C3 theorem at concrete distinct violations. -/
theorem diff_correctness_amended_witness :
    (logViolations
        (logViolations []
          [⟨"r1", some "serious", "", "", "", [⟨"", ["t1"]⟩]⟩,
           ⟨"r2", some "moderate", "", "", "", [⟨"", ["t2"]⟩]⟩] true).previous
        [⟨"r2", some "moderate", "", "", "", [⟨"", ["t2"]⟩]⟩,
         ⟨"r3", some "minor", "", "", "", [⟨"", ["t3"]⟩]⟩] false).added
      = [⟨"r3", some "minor", "", "", "", [⟨"", ["t3"]⟩]⟩] :=
  (diff_correctness_amended
    ⟨"r1", some "serious", "", "", "", [⟨"", ["t1"]⟩]⟩
    ⟨"r2", some "moderate", "", "", "", [⟨"", ["t2"]⟩]⟩
    ⟨"r3", some "minor", "", "", "", [⟨"", ["t3"]⟩]⟩
    (by decide) (by decide) (by decide) (by decide) (by decide)).1

end UseA11y

/-! ## C9 -/

namespace UseA11y

/-- C9: the violation key is deterministic (equal records yield equal keys),
each node's target-path component is truncated to at most 50 characters before
being joined into the key, and key equality is what the differ uses to treat a
current record and a stored record as the same violation: a current record
whose key matches some stored entry is never reported as new, and a stored
entry whose key matches some current record is never reported as resolved
(element identity plays no role in the key). -/
theorem violation_key_props :
    (∀ v w : Result, v = w → createViolationKey v = createViolationKey w)
    ∧ (∀ v : Result, ∀ n ∈ v.nodes, (jsSlice (joinSep "," n.target) 50).length ≤ 50)
    ∧ (∀ (prev : List ViolationLogEntry) (results : List Result) (v : Result),
        v ∈ results → (∃ p ∈ prev, createViolationKeyEntry p = createViolationKey v) →
        v ∉ newViolations prev results)
    ∧ (∀ (prev : List ViolationLogEntry) (results : List Result) (p : ViolationLogEntry),
        p ∈ prev → (∃ v ∈ results, createViolationKey v = createViolationKeyEntry p) →
        p ∉ resolvedViolations prev results) := by
  refine ⟨fun v w h => h ▸ rfl, ?_, ?_, ?_⟩
  · intro v n _
    simp only [jsSlice, String.length, List.length_take]
    omega
  · rintro prev results v _ ⟨p, hp, hkey⟩ hmem
    have hc : (previousKeys prev).contains (createViolationKey v) = true := by
      apply string_contains_of_mem
      rw [← hkey]
      unfold previousKeys
      exact List.mem_map_of_mem createViolationKeyEntry hp
    rcases List.mem_filter.mp hmem with ⟨-, hpred⟩
    simp only [hc, Bool.not_true, Bool.false_eq_true] at hpred
  · rintro prev results p _ ⟨v, hv, hkey⟩ hmem
    have hc : (currentKeys results).contains (createViolationKeyEntry p) = true := by
      apply string_contains_of_mem
      rw [← hkey]
      unfold currentKeys
      exact List.mem_map_of_mem createViolationKey hv
    rcases List.mem_filter.mp hmem with ⟨-, hpred⟩
    simp only [hc, Bool.not_true, Bool.false_eq_true] at hpred

/-- Witness for the violation-key theorem at concrete records. -/
theorem violation_key_props_witness :
    createViolationKey ⟨"r", some "minor", "", "", "", [⟨"", ["t"]⟩]⟩
        = createViolationKey ⟨"r", some "minor", "", "", "", [⟨"", ["t"]⟩]⟩
    ∧ (jsSlice (joinSep "," ["t"]) 50).length ≤ 50
    ∧ (⟨"r", some "minor", "", "", "", [⟨"", ["t"]⟩]⟩ : Result)
        ∉ newViolations [toLogEntry ⟨"r", some "minor", "", "", "", [⟨"", ["t"]⟩]⟩]
            [⟨"r", some "minor", "", "", "", [⟨"", ["t"]⟩]⟩]
    ∧ toLogEntry ⟨"r", some "minor", "", "", "", [⟨"", ["t"]⟩]⟩
        ∉ resolvedViolations [toLogEntry ⟨"r", some "minor", "", "", "", [⟨"", ["t"]⟩]⟩]
            [⟨"r", some "minor", "", "", "", [⟨"", ["t"]⟩]⟩] :=
  ⟨violation_key_props.1 _ _ rfl,
   violation_key_props.2.1 ⟨"r", some "minor", "", "", "", [⟨"", ["t"]⟩]⟩ ⟨"", ["t"]⟩
     (by decide),
   violation_key_props.2.2.1 _ _ _ (by simp)
     ⟨toLogEntry ⟨"r", some "minor", "", "", "", [⟨"", ["t"]⟩]⟩, by simp, by decide⟩,
   violation_key_props.2.2.2 _ _ _ (by simp)
     ⟨⟨"r", some "minor", "", "", "", [⟨"", ["t"]⟩]⟩, by simp, by decide⟩⟩

end UseA11y

/-! ## C8 -/

namespace UseA11y

/-- C8: whenever removing an instance handle leaves the registry empty, the
cleanup resets the global running flag to false. -/
theorem cleanup_resets_global_flag (instanceId : Nat) (s : CoordState)
    (h : (cleanup instanceId s).axeInstances = []) :
    (cleanup instanceId s).isAxeRunning = false := by
  cases he : (s.axeInstances.filter (fun x => x != instanceId)).isEmpty with
  | true => simp [cleanup, he]
  | false =>
    exfalso
    simp only [cleanup, he, Bool.false_eq_true, if_false] at h
    rw [h] at he
    simp at he

/-- Witness: cleaning up the last live instance empties the registry and drops
the flag. -/
theorem cleanup_resets_global_flag_witness :
    (cleanup 1 ⟨[1], true⟩).axeInstances = [] ∧ (cleanup 1 ⟨[1], true⟩).isAxeRunning = false :=
  ⟨by decide, cleanup_resets_global_flag 1 ⟨[1], true⟩ (by decide)⟩

end UseA11y

/-! ## C10 -/

namespace UseA11y

/-- In a well-formed overlay state, `removeHighlight` leaves no overlay node
attached and no singleton reference, whether or not one was present. -/
theorem removeHighlight_of_wf {s : HighlightState} (h : HighlightWF s) :
    removeHighlight s = ⟨[], none, s.nextNodeId⟩ := by
  obtain ⟨ov, he, nid⟩ := s
  unfold HighlightWF at h
  cases he with
  | none =>
    simp only [Option.toList] at h
    have : ov = [] := List.map_eq_nil_iff.mp h
    simp [removeHighlight, this]
  | some hid =>
    cases ov with
    | nil => simp at h
    | cons o rest =>
      simp only [List.map_cons, Option.toList] at h
      injection h with h1 h2
      have hrest : rest = [] := List.map_eq_nil_iff.mp h2
      simp [removeHighlight, hrest, h1, List.filter]

/-- C10: in any well-formed overlay state, showing a highlight twice in
succession leaves exactly one overlay node, at the second bounding box, with
pointer events suppressed and fixed positioning; both operations preserve
well-formedness (hence "at most one overlay node at any time"); hiding removes
the overlay and clears the reference; and hiding with no reference set is a
no-op. -/
theorem highlight_overlay_exclusive (s : HighlightState) (r1 r2 : Rect)
    (h : HighlightWF s) :
    (highlightElement true r2 (highlightElement true r1 s)).overlayNodes.map
        (fun o => (o.rect, o.pointerEventsNone, o.fixedPosition)) = [(r2, true, true)]
    ∧ HighlightWF (highlightElement true r1 s)
    ∧ HighlightWF (removeHighlight s)
    ∧ removeHighlight s = ⟨[], none, s.nextNodeId⟩
    ∧ (∀ (ov : List OverlayNode) (n : Nat), removeHighlight ⟨ov, none, n⟩ = ⟨ov, none, n⟩) := by
  have hrem := removeHighlight_of_wf h
  have h1 : highlightElement true r1 s
      = ⟨[mkOverlay s.nextNodeId r1], some s.nextNodeId, s.nextNodeId + 1⟩ := by
    simp [highlightElement, hrem]
  have hwf1 : HighlightWF (highlightElement true r1 s) := by
    rw [h1]; rfl
  have hwfX : HighlightWF
      (⟨[mkOverlay s.nextNodeId r1], some s.nextNodeId, s.nextNodeId + 1⟩ : HighlightState) :=
    rfl
  have hremX := removeHighlight_of_wf hwfX
  have h2 : highlightElement true r2 (highlightElement true r1 s)
      = ⟨[mkOverlay (s.nextNodeId + 1) r2], some (s.nextNodeId + 1), s.nextNodeId + 2⟩ := by
    rw [h1]
    simp [highlightElement, hremX]
  refine ⟨?_, hwf1, ?_, hrem, fun ov n => rfl⟩
  · rw [h2]; rfl
  · rw [hrem]; rfl

/-- Witness for the highlight-exclusivity theorem from the pristine state. -/
theorem highlight_overlay_exclusive_witness :
    (highlightElement true ⟨5, 6, 7, 8⟩ (highlightElement true ⟨1, 2, 3, 4⟩
        ⟨[], none, 0⟩)).overlayNodes.map
      (fun o => (o.rect, o.pointerEventsNone, o.fixedPosition)) = [(⟨5, 6, 7, 8⟩, true, true)] :=
  (highlight_overlay_exclusive ⟨[], none, 0⟩ ⟨1, 2, 3, 4⟩ ⟨5, 6, 7, 8⟩ rfl).1

end UseA11y

/-! ## C2 -/

namespace UseA11y

/-- C2 counterexample: two `runAxe(true)` calls made before the first initial
scan completes (here: before the queue drains) both pass the request-time
guard, so the drain executes TWO initial scans, not one. -/
theorem double_initial_scan_counterexample :
    doubleInitialScanScenario.executedScans.count true = 2
    ∧ ¬ doubleInitialScanScenario.executedScans.count true = 1 := by
  exact ⟨by decide, by decide⟩

/-- C2 (amended): the initial-scan guard fires at request time only — once an
instance has completed an initial scan, any further `runAxe(true)` call is a
no-op; but two `runAxe(true)` calls both made before the first initial scan
completes enqueue two thunks and both execute, yielding two initial scans
(one call yields exactly one). -/
theorem initial_scan_guard_amended :
    (∀ (enabled running : Bool) (q ex : List Bool),
        runAxeRequest enabled true ⟨true, running, q, ex⟩ = ⟨true, running, q, ex⟩)
    ∧ singleInitialScanScenario.executedScans = [true]
    ∧ doubleInitialScanScenario.executedScans = [true, true] := by
  refine ⟨?_, by decide, by decide⟩
  intro enabled running q ex
  cases enabled <;> rfl

end UseA11y

/-! ## C6 -/

namespace UseA11y

/-- C6: no error crosses the boundary — every thunk run resolves (`ok`)
whatever the scanner does; a busy-signalling error is silently skipped for a
non-initial scan and scheduled for a 1000 ms backoff retry for an initial
scan; every other scanner failure is logged and swallowed; the finally block
always clears both flags; and the drain's own guard also swallows any error
escaping a thunk. -/
theorem scan_error_policy :
    (∀ (g : RunFlags) (isInitialScan : Bool) (scanner : Except JsError Unit),
        ∃ v, queuedRun g isInitialScan scanner = .ok v)
    ∧ (∀ (running : Bool) (isInitialScan : Bool) (e : JsError), isAxeBusyError e = true →
        queuedRun ⟨running, false⟩ isInitialScan (.error e)
          = .ok ((if isInitialScan then .retryScheduled 1000 else .silentSkip),
              ⟨false, false⟩))
    ∧ (∀ (running : Bool) (isInitialScan : Bool) (e : JsError), isAxeBusyError e = false →
        queuedRun ⟨running, false⟩ isInitialScan (.error e)
          = .ok (.loggedError e, ⟨false, false⟩))
    ∧ (∀ t, ∃ v, processQueueStep t = .ok v) := by
  refine ⟨?_, ?_, ?_, ?_⟩
  · intro g i sc
    unfold queuedRun
    by_cases hg : g.isAxeRunning
    · simp [hg]
    · cases sc with
      | ok u => simp [hg, Except.map]
      | error e =>
        by_cases hb : isAxeBusyError e <;> cases i <;> simp [hg, hb, Except.map]
  · intro running i e hb
    cases i <;> simp [queuedRun, hb, Except.map]
  · intro running i e hb
    cases i <;> simp [queuedRun, hb, Except.map]
  · intro t
    cases t <;> exact ⟨_, rfl⟩

/-- Witness for the error-policy theorem at concrete errors. -/
theorem scan_error_policy_witness :
    queuedRun ⟨true, false⟩ false (.error ⟨true, "Axe is already running"⟩)
        = .ok (.silentSkip, ⟨false, false⟩)
    ∧ queuedRun ⟨true, false⟩ true (.error ⟨false, "boom"⟩)
        = .ok (.loggedError ⟨false, "boom"⟩, ⟨false, false⟩) :=
  ⟨by simpa using scan_error_policy.2.1 true false ⟨true, "Axe is already running"⟩ (by decide),
   scan_error_policy.2.2.1 true true ⟨false, "boom"⟩ (by decide)⟩

end UseA11y

/-! ## C1 -/

namespace UseA11y

theorem loops_singleton {l : List (Option Nat)} {i : Nat} {x : Option Nat}
    (hlen : l.length ≤ 1) (hget : l.get? i = some x) : l = [x] ∧ i = 0 := by
  cases l with
  | nil => simp at hget
  | cons a as =>
    cases as with
    | nil =>
      cases i with
      | zero =>
        simp only [List.get?_cons_zero, Option.some.injEq] at hget
        exact ⟨by rw [hget], rfl⟩
      | succ j => simp at hget
    | cons b bs => simp at hlen

/-- Every step of the queue machine preserves the serialization invariant. -/
theorem stepQ_preserves (a : QAct) (s : QState) (h : QInv s) : QInv (stepQ a s) := by
  obtain ⟨hlen, hflag, heq⟩ := h
  cases a with
  | push t =>
    refine ⟨hlen, hflag, ?_⟩
    simp only [stepQ]
    rw [show (inflight { s with axeQueue := s.axeQueue ++ [t], pushed := s.pushed ++ [t] })
        = inflight s from rfl]
    rw [← heq]
    simp [List.append_assoc]
  | callDrain =>
    by_cases hc : (s.isProcessingQueue || s.axeQueue.isEmpty) = true
    · have : stepQ .callDrain s = s := by simp [stepQ, hc]
      rw [this]; exact ⟨hlen, hflag, heq⟩
    · have h1 : s.isProcessingQueue = false := by
        revert hc; cases s.isProcessingQueue <;> simp
      have hloops : s.loops = [] := by
        rw [h1] at hflag
        cases hl : s.loops with
        | nil => rfl
        | cons x xs => rw [hl] at hflag; simp at hflag
      have hstep : stepQ .callDrain s
          = { s with isProcessingQueue := true, loops := s.loops ++ [none] } := by
        simp only [stepQ, hc, if_false]; rfl
      rw [hstep, hloops]
      refine ⟨by simp, by simp, ?_⟩
      simpa [inflight, hloops] using heq
  | dequeue i =>
    cases hg : s.loops.get? i with
    | none =>
      have : stepQ (.dequeue i) s = s := by
        simp only [stepQ, hg]
      rw [this]; exact ⟨hlen, hflag, heq⟩
    | some x =>
      cases x with
      | some t =>
        have : stepQ (.dequeue i) s = s := by
          simp only [stepQ, hg]
        rw [this]; exact ⟨hlen, hflag, heq⟩
      | none =>
        cases hq : s.axeQueue with
        | nil =>
          have : stepQ (.dequeue i) s = s := by
            simp only [stepQ, hg, hq]
          rw [this]; exact ⟨hlen, hflag, heq⟩
        | cons t rest =>
          obtain ⟨hl, hi⟩ := loops_singleton hlen hg
          subst hi
          have hstep : stepQ (.dequeue 0) s
              = { s with loops := [some t], axeQueue := rest } := by
            simp only [stepQ, hg, hq, hl]
            rfl
          rw [hstep]
          refine ⟨by simp, ?_, ?_⟩
          · rw [show ({ s with loops := [some t], axeQueue := rest } : QState).isProcessingQueue
                = s.isProcessingQueue from rfl]
            rw [hflag, hl]; rfl
          · simpa [inflight, hl, hq] using heq
  | finish i =>
    cases hg : s.loops.get? i with
    | none =>
      have : stepQ (.finish i) s = s := by simp only [stepQ, hg]
      rw [this]; exact ⟨hlen, hflag, heq⟩
    | some x =>
      cases x with
      | none =>
        have : stepQ (.finish i) s = s := by simp only [stepQ, hg]
        rw [this]; exact ⟨hlen, hflag, heq⟩
      | some t =>
        obtain ⟨hl, hi⟩ := loops_singleton hlen hg
        subst hi
        have hstep : stepQ (.finish 0) s
            = { s with loops := [none], executed := s.executed ++ [t] } := by
          simp only [stepQ, hg, hl]
          rfl
        rw [hstep]
        refine ⟨by simp, ?_, ?_⟩
        · rw [show ({ s with loops := [none], executed := s.executed ++ [t] } : QState).isProcessingQueue
              = s.isProcessingQueue from rfl]
          rw [hflag, hl]; rfl
        · simpa [inflight, hl] using heq
  | exitLoop i =>
    cases hg : s.loops.get? i with
    | none =>
      have : stepQ (.exitLoop i) s = s := by simp only [stepQ, hg]
      rw [this]; exact ⟨hlen, hflag, heq⟩
    | some x =>
      cases x with
      | some t =>
        have : stepQ (.exitLoop i) s = s := by simp only [stepQ, hg]
        rw [this]; exact ⟨hlen, hflag, heq⟩
      | none =>
        obtain ⟨hl, hi⟩ := loops_singleton hlen hg
        subst hi
        by_cases hqe : s.axeQueue.isEmpty = true
        · have hq : s.axeQueue = [] := by
            cases hqq : s.axeQueue with
            | nil => rfl
            | cons a as => rw [hqq] at hqe; simp at hqe
          have hstep : stepQ (.exitLoop 0) s
              = { s with loops := [], isProcessingQueue := false } := by
            simp only [stepQ, hg, hqe, if_pos, hl]
            rfl
          rw [hstep]
          refine ⟨by simp, rfl, ?_⟩
          simpa [inflight, hl, hq] using heq
        · have hstep : stepQ (.exitLoop 0) s = s := by
            simp only [stepQ, hg, hqe]
            split <;> simp_all
          rw [hstep]; exact ⟨hlen, hflag, heq⟩

theorem QInv_foldl : ∀ (acts : List QAct) (s : QState), QInv s →
    QInv (acts.foldl (fun s a => stepQ a s) s) := by
  intro acts
  induction acts with
  | nil => intro s h; exact h
  | cons a as ih => intro s h; exact ih _ (stepQ_preserves a s h)

/-- C1: along every event sequence from the initial module state, at most one
queued thunk is ever in flight (no two scan executions overlap — the
`isProcessingQueue` flag keeps at most one drain frame alive, and a drain
frame only dequeues when it is not awaiting a thunk, i.e. after awaiting the
previous thunk, including its failure handling, to completion); the executed
thunks followed by the in-flight and still-queued thunks are exactly the
enqueued thunks in FIFO submission order (so completed executions are always a
prefix of the submission order); and a `processAxeQueue` call made while the
draining flag is set leaves the state unchanged (no re-entrant drain). -/
theorem run_queue_serialized_fifo (acts : List QAct) :
    (inflight (runQ acts)).length ≤ 1
    ∧ (runQ acts).executed ++ inflight (runQ acts) ++ (runQ acts).axeQueue
        = (runQ acts).pushed
    ∧ (∀ (q : List Nat) (l : List (Option Nat)) (ex pu : List Nat),
        stepQ .callDrain ⟨q, true, l, ex, pu⟩ = ⟨q, true, l, ex, pu⟩) := by
  have h : QInv (runQ acts) := QInv_foldl acts initQ ⟨by simp [initQ], rfl, rfl⟩
  refine ⟨?_, h.2.2, ?_⟩
  · exact le_trans (by simpa [inflight] using List.length_filterMap_le id (runQ acts).loops)
      h.1
  · intro q l ex pu
    simp [stepQ]

end UseA11y

/-! ## C7 -/

namespace UseA11y

/-- The polling loop, characterized on the 100 ms sample grid: starting at
sample `j` with `j + c = lastPollStep m`, it resolves true exactly when some
remaining sample is ready, and otherwise warns and resolves false. -/
theorem checkContent_go (ready : Nat → Bool) (m : Nat) :
    ∀ (c j : Nat), j + c = lastPollStep m →
      checkContent ready m (100 * j)
        = (if (List.range' j (c + 1)).any (fun k => ready (100 * k)) then (true, false)
           else (false, true)) := by
  intro c
  induction c with
  | zero =>
    intro j hj
    rw [checkContent]
    by_cases hr : ready (100 * j) = true
    · simp [hr, List.range']
    · have hm : m ≤ 100 * j := by
        simp only [lastPollStep, Nat.add_zero] at hj
        omega
      simp [hr, hm, List.range']
  | succ c ih =>
    intro j hj
    rw [checkContent]
    by_cases hr : ready (100 * j) = true
    · simp [hr, List.range'_succ]
    · have hlt : 100 * j < m := by
        simp only [lastPollStep] at hj
        omega
      have hm : ¬m ≤ 100 * j := by omega
      rw [if_neg (by simp [hr]), if_neg hm,
        show 100 * j + 100 = 100 * (j + 1) by ring, ih (j + 1) (by omega)]
      have hrr : ready (100 * j) = false := by simpa using hr
      have hcond : (List.range' j (c + 1 + 1)).any (fun k => ready (100 * k))
          = (List.range' (j + 1) (c + 1)).any (fun k => ready (100 * k)) := by
        rw [List.range'_succ]
        simp [hrr]
      rw [hcond]

/-- C7: the readiness gate resolves true immediately when disabled; a target
is content-ready exactly when it has an allow-listed interactive/semantic
descendant, or trimmed text content longer than 10 characters, or a descendant
with non-empty nested encapsulated content; the enabled gate resolves true
exactly when readiness holds at one of the 100 ms samples up to the deadline
(with `maxWaitTime` defaulting to 5000); and otherwise it logs the timeout
warning and resolves false — it never fails. -/
theorem readiness_gate_spec :
    (∀ (ready : Nat → Bool) (m : Nat), waitForContentReadiness false ready m = (true, false))
    ∧ (∀ targetElement : Elem,
        hasContentReady true targetElement = true ↔ specContentReady targetElement)
    ∧ (∀ (ready : Nat → Bool) (m : Nat),
        waitForContentReadiness true ready m = (true, false)
          ↔ ∃ k ≤ lastPollStep m, ready (100 * k) = true)
    ∧ (∀ (ready : Nat → Bool) (m : Nat),
        waitForContentReadiness true ready m = (true, false)
          ∨ waitForContentReadiness true ready m = (false, true)) := by
  have hkey : ∀ (ready : Nat → Bool) (m : Nat),
      waitForContentReadiness true ready m
        = (if (List.range' 0 (lastPollStep m + 1)).any (fun k => ready (100 * k)) then
            ((true : Bool), (false : Bool))
           else (false, true)) := by
    intro ready m
    have h0 := checkContent_go ready m (lastPollStep m) 0 (by omega)
    simpa [waitForContentReadiness] using h0
  refine ⟨fun ready m => rfl, ?_, ?_, ?_⟩
  · intro target
    have hA : (target.descendants.filter meaningfulElement).length > 0
        ↔ ∃ e ∈ target.descendants, meaningfulElement e = true := by
      constructor
      · intro h
        have hne : target.descendants.filter meaningfulElement ≠ [] := by
          intro hnil
          rw [hnil] at h
          simp at h
        rcases List.exists_mem_of_ne_nil _ hne with ⟨e, he⟩
        rcases List.mem_filter.mp he with ⟨hd, hp⟩
        exact ⟨e, hd, hp⟩
      · rintro ⟨e, hd, hp⟩
        exact List.length_pos_of_mem (List.mem_filter.mpr ⟨hd, hp⟩)
    have hC : target.descendants.any (fun el => !el.shadow.isNil) = true
        ↔ ∃ e ∈ target.descendants, e.shadow.isNil = false := by
      rw [List.any_eq_true]
      constructor
      · rintro ⟨e, he, hp⟩
        exact ⟨e, he, by simpa using hp⟩
      · rintro ⟨e, he, hp⟩
        exact ⟨e, he, by simp [hp]⟩
    constructor
    · intro h
      unfold hasContentReady at h
      simp only [Bool.not_true, Bool.false_eq_true, if_false] at h
      split_ifs at h with h1 h2 h3
      · exact Or.inl (hA.mp h1)
      · exact Or.inr (Or.inl h2)
      · exact Or.inr (Or.inr (hC.mp h3))
    · intro h
      unfold hasContentReady
      simp only [Bool.not_true, Bool.false_eq_true, if_false]
      split_ifs with h1 h2 h3
      · rfl
      · rfl
      · rfl
      · rcases h with hA' | hB | hC'
        · exact absurd (hA.mpr hA') h1
        · exact absurd hB h2
        · exact absurd (hC.mpr hC') h3
  · intro ready m
    rw [hkey ready m]
    by_cases hany : (List.range' 0 (lastPollStep m + 1)).any (fun k => ready (100 * k)) = true
    · rw [if_pos hany]
      constructor
      · intro _
        rcases List.any_eq_true.mp hany with ⟨k, hk, hp⟩
        rcases List.mem_range'_1.mp hk with ⟨-, hklt⟩
        exact ⟨k, by omega, hp⟩
      · intro _
        rfl
    · rw [if_neg hany]
      constructor
      · intro h
        simp at h
      · rintro ⟨k, hk, hp⟩
        exact absurd
          (List.any_eq_true.mpr ⟨k, List.mem_range'_1.mpr ⟨Nat.zero_le k, by omega⟩, hp⟩)
          hany
  · intro ready m
    rw [hkey ready m]
    by_cases hany : (List.range' 0 (lastPollStep m + 1)).any (fun k => ready (100 * k)) = true
    · exact Or.inl (by rw [if_pos hany])
    · exact Or.inr (by rw [if_neg hany])

/-- Witness for the readiness-gate theorem at concrete inputs. -/
theorem readiness_gate_spec_witness :
    waitForContentReadiness true (fun _ => true) 0 = (true, false)
    ∧ waitForContentReadiness false (fun _ => false) 5000 = (true, false) :=
  ⟨(readiness_gate_spec.2.2.1 (fun _ => true) 0).mpr ⟨0, by omega, rfl⟩,
   readiness_gate_spec.1 (fun _ => false) 5000⟩

end UseA11y

/-! ## C5 -/

namespace UseA11y

theorem findSome?_congr {α β : Type} {f g : α → Option β} :
    ∀ {l : List α}, (∀ a ∈ l, f a = g a) → l.findSome? f = l.findSome? g := by
  intro l
  induction l with
  | nil => intro _; rfl
  | cons a as ih =>
    intro h
    rw [List.findSome?_cons, List.findSome?_cons, h a (by simp),
      ih (fun x hx => h x (by simp [hx]))]

theorem findSome?_flatten {α β : Type} (f : α → Option β) :
    ∀ L : List (List α), L.flatten.findSome? f = L.findSome? (fun l => l.findSome? f) := by
  intro L
  induction L with
  | nil => rfl
  | cons l ls ih =>
    rw [show (l :: ls).flatten = l ++ ls.flatten from rfl, List.findSome?_append, ih]
    cases hl : l.findSome? f <;> simp [List.findSome?_cons, hl, Option.or]

theorem Elem.size_pos (e : Elem) : 1 ≤ e.size := by
  cases e with
  | node d sh ch =>
    simp only [Elem.size]
    omega

theorem size_le_of_mem_descList : ∀ (n : Nat) (l : ElemList), l.sizeL ≤ n →
    ∀ e ∈ l.descList, e.size ≤ l.sizeL := by
  intro n
  induction n using Nat.strong_induction_on with
  | _ n ih =>
    intro l hl e he
    cases l with
    | nil => simp [ElemList.descList] at he
    | cons a as =>
      simp only [ElemList.descList, List.mem_cons, List.mem_append] at he
      have ha := Elem.size_pos a
      rcases he with (rfl | h) | h
      · simp only [ElemList.sizeL]
        omega
      · cases a with
        | node d sh ch =>
          simp only [Elem.descendants] at h
          simp only [ElemList.sizeL, Elem.size] at hl ha ⊢
          have hch : ch.sizeL ≤ n - 1 := by omega
          have hn : n - 1 < n := by omega
          have := ih (n - 1) hn ch hch e h
          omega
      · simp only [ElemList.sizeL] at hl ⊢
        have has : as.sizeL ≤ n - 1 := by omega
        have hn : n - 1 < n := by omega
        have := ih (n - 1) hn as has e h
        omega

theorem size_le_of_mem_toList : ∀ (n : Nat) (l : ElemList), l.sizeL ≤ n →
    ∀ e ∈ l.toList, e.size ≤ l.sizeL := by
  intro n
  induction n using Nat.strong_induction_on with
  | _ n ih =>
    intro l hl e he
    cases l with
    | nil => simp [ElemList.toList] at he
    | cons a as =>
      simp only [ElemList.toList, List.mem_cons] at he
      have ha := Elem.size_pos a
      rcases he with rfl | h
      · simp only [ElemList.sizeL]
        omega
      · simp only [ElemList.sizeL] at hl ⊢
        have has : as.sizeL ≤ n - 1 := by omega
        have hn : n - 1 < n := by omega
        have := ih (n - 1) hn as has e h
        omega

/-- The recursive shadow search equals, at every fuel, the first boundary (in
the code's visit order at the same fuel) on which the full single-boundary
matcher succeeds. -/
theorem searchShadowFuel_eq (html : String) :
    ∀ (fuel : Nat) (node : Elem),
      searchShadowFuel fuel html node
        = (shadowBoundariesFuel fuel node).findSome? (fun b => findByHtmlContent html b) := by
  intro fuel
  induction fuel with
  | zero => intro node; rfl
  | succ f ih =>
    intro node
    have hfun : (fun e => searchShadowFuel f html e)
        = (fun e => (shadowBoundariesFuel f e).findSome? (fun b => findByHtmlContent html b)) :=
      funext ih
    simp only [searchShadowFuel, shadowBoundariesFuel]
    by_cases hsh : node.shadow.isNil = true
    · simp only [hsh, if_true, List.nil_append]
      rw [hfun, findSome?_flatten, List.findSome?_map]
      rfl
    · have hsh' : node.shadow.isNil = false := by simpa using hsh
      simp only [hsh', Bool.false_eq_true, if_false, List.cons_append]
      cases hfb : findByHtmlContent html node.shadow.descList with
      | some e => simp [List.findSome?_cons, hfb]
      | none =>
        rw [hfun]
        rw [List.findSome?_cons]
        simp only [hfb]
        rw [List.findSome?_append, findSome?_flatten, List.findSome?_map,
          findSome?_flatten, List.findSome?_map]
        cases hx : node.shadow.descList.findSome?
            (fun e => (shadowBoundariesFuel f e).findSome? (fun b => findByHtmlContent html b))
          with
        | some e =>
          rw [show ((fun l => l.findSome? (fun b => findByHtmlContent html b))
              ∘ shadowBoundariesFuel f)
            = (fun e => (shadowBoundariesFuel f e).findSome?
                (fun b => findByHtmlContent html b)) from rfl]
          rw [hx]
          rfl
        | none =>
          rw [show ((fun l => l.findSome? (fun b => findByHtmlContent html b))
              ∘ shadowBoundariesFuel f)
            = (fun e => (shadowBoundariesFuel f e).findSome?
                (fun b => findByHtmlContent html b)) from rfl]
          rw [hx]
          rfl

/-- The shadow search result does not depend on the fuel once the fuel reaches
the node's size (the recursion depth is bounded by the strictly shrinking
subtree size). -/
theorem searchShadowFuel_fuel_irrel (html : String) :
    ∀ (n : Nat) (node : Elem), node.size ≤ n →
      ∀ (f₁ f₂ : Nat), node.size ≤ f₁ → node.size ≤ f₂ →
        searchShadowFuel f₁ html node = searchShadowFuel f₂ html node := by
  intro n
  induction n using Nat.strong_induction_on with
  | _ n ih =>
    intro node hn f₁ f₂ h1 h2
    have hpos := Elem.size_pos node
    cases f₁ with
    | zero => omega
    | succ g₁ =>
      cases f₂ with
      | zero => omega
      | succ g₂ =>
        cases node with
        | node d sh ch =>
          have hsize : (Elem.node d sh ch).size = 1 + sh.sizeL + ch.sizeL := rfl
          have hshb : ∀ e ∈ sh.descList, e.size ≤ sh.sizeL :=
            size_le_of_mem_descList sh.sizeL sh le_rfl
          have hchb : ∀ e ∈ ch.toList, e.size ≤ ch.sizeL :=
            size_le_of_mem_toList ch.sizeL ch le_rfl
          have hrec : ∀ e, e.size ≤ sh.sizeL + ch.sizeL →
              searchShadowFuel g₁ html e = searchShadowFuel g₂ html e := by
            intro e hle
            have hnn : sh.sizeL + ch.sizeL < n := by omega
            exact ih (sh.sizeL + ch.sizeL) hnn e hle g₁ g₂ (by omega) (by omega)
          have e1 : sh.descList.findSome? (fun e => searchShadowFuel g₁ html e)
              = sh.descList.findSome? (fun e => searchShadowFuel g₂ html e) :=
            findSome?_congr (fun e hmem => hrec e (by have := hshb e hmem; omega))
          have e2 : ch.toList.findSome? (fun e => searchShadowFuel g₁ html e)
              = ch.toList.findSome? (fun e => searchShadowFuel g₂ html e) :=
            findSome?_congr (fun e hmem => hrec e (by have := hchb e hmem; omega))
          simp only [searchShadowFuel, Elem.shadow, Elem.children]
          rw [e1, e2]

/-- The boundary list likewise stabilizes once the fuel reaches the node's
size. -/
theorem shadowBoundariesFuel_fuel_irrel :
    ∀ (n : Nat) (node : Elem), node.size ≤ n →
      ∀ (f₁ f₂ : Nat), node.size ≤ f₁ → node.size ≤ f₂ →
        shadowBoundariesFuel f₁ node = shadowBoundariesFuel f₂ node := by
  intro n
  induction n using Nat.strong_induction_on with
  | _ n ih =>
    intro node hn f₁ f₂ h1 h2
    have hpos := Elem.size_pos node
    cases f₁ with
    | zero => omega
    | succ g₁ =>
      cases f₂ with
      | zero => omega
      | succ g₂ =>
        cases node with
        | node d sh ch =>
          have hsize : (Elem.node d sh ch).size = 1 + sh.sizeL + ch.sizeL := rfl
          have hshb : ∀ e ∈ sh.descList, e.size ≤ sh.sizeL :=
            size_le_of_mem_descList sh.sizeL sh le_rfl
          have hchb : ∀ e ∈ ch.toList, e.size ≤ ch.sizeL :=
            size_le_of_mem_toList ch.sizeL ch le_rfl
          have hrec : ∀ e, e.size ≤ sh.sizeL + ch.sizeL →
              shadowBoundariesFuel g₁ e = shadowBoundariesFuel g₂ e := by
            intro e hle
            have hnn : sh.sizeL + ch.sizeL < n := by omega
            exact ih (sh.sizeL + ch.sizeL) hnn e hle g₁ g₂ (by omega) (by omega)
          have e1 : sh.descList.map (shadowBoundariesFuel g₁)
              = sh.descList.map (shadowBoundariesFuel g₂) :=
            List.map_congr_left (fun e hmem => hrec e (by have := hshb e hmem; omega))
          have e2 : ch.toList.map (shadowBoundariesFuel g₁)
              = ch.toList.map (shadowBoundariesFuel g₂) :=
            List.map_congr_left (fun e hmem => hrec e (by have := hchb e hmem; omega))
          simp only [shadowBoundariesFuel, Elem.shadow, Elem.children]
          rw [e1, e2]

/-- C5 counterexample to the attribute-major reading: on a root whose light
child matches the fragment's class and whose shadow tree holds the element
with the fragment's id, the source locator returns the class-matched light
element (it exhausts the full priority list on the root's own tree before
descending), while the claimed procedure — each attribute matched against
root and every nested boundary before the next attribute — would return the
id-matched shadow element. -/
theorem locator_order_counterexample :
    (findByHtmlContentInAllShadowRoots exHtml exRoot).map (fun e => e.data.idAttr)
        = some none
    ∧ (specAttributeMajorLocate exHtml exRoot).map (fun e => e.data.idAttr)
        = some (some "x")
    ∧ findByHtmlContentInAllShadowRoots exHtml exRoot
        ≠ specAttributeMajorLocate exHtml exRoot := by
  have h1 : (findByHtmlContentInAllShadowRoots exHtml exRoot).map (fun e => e.data.idAttr)
      = some none := by decide
  have h2 : (specAttributeMajorLocate exHtml exRoot).map (fun e => e.data.idAttr)
      = some (some "x") := by decide
  refine ⟨h1, h2, fun h => ?_⟩
  rw [h, h2] at h1
  simp at h1

/-- C5 (amended): the locator is boundary-major, with the priority order
applied within each boundary — the single-boundary matcher tries, in order,
id, aria-label, role plus class list, role alone, non-empty class list alone,
then text content longer than 3 characters (first conjunct); the combined
locator searches the root's own tree with that full priority list and, only
when it fails there, descends into nested encapsulated boundaries in the
code's depth-first visit order, each searched with the full priority list in
turn (second conjunct); and the fuel in the boundary enumeration is exact at
the node's size (third conjunct). -/
theorem locator_boundary_major :
    (∀ (html : String) (cands : List Elem),
        findByHtmlContent html cands
          = priorityStrategies.findSome? (fun strat => strat html cands))
    ∧ (∀ (html : String) (root : Elem),
        findByHtmlContentInAllShadowRoots html root
          = (root.descendants :: nodeBoundaries root).findSome?
              (fun b => findByHtmlContent html b))
    ∧ (∀ (root : Elem) (fuel : Nat), root.size ≤ fuel →
        shadowBoundariesFuel fuel root = nodeBoundaries root) := by
  refine ⟨?_, ?_, ?_⟩
  · intro html cands
    unfold findByHtmlContent priorityStrategies tryIdStrategy tryAriaLabelStrategy
      tryRoleClassStrategy tryRoleStrategy tryClassStrategy tryTextStrategy
    simp only [List.findSome?_cons, List.findSome?_nil]
    repeat' (split <;> try rfl)
    all_goals simp_all
    all_goals omega
  · intro html root
    rw [List.findSome?_cons]
    unfold findByHtmlContentInAllShadowRoots
    cases hfb : findByHtmlContent html root.descendants with
    | some e => rfl
    | none => exact searchShadowFuel_eq html root.size root
  · intro root fuel hfuel
    exact shadowBoundariesFuel_fuel_irrel root.size root le_rfl fuel root.size hfuel le_rfl

/-- Witness for the amended locator theorem at concrete inputs. -/
theorem locator_boundary_major_witness :
    shadowBoundariesFuel 3 exRoot = nodeBoundaries exRoot
    ∧ findByHtmlContentInAllShadowRoots exHtml exRoot
        = (exRoot.descendants :: nodeBoundaries exRoot).findSome?
            (fun b => findByHtmlContent exHtml b) :=
  ⟨locator_boundary_major.2.2 exRoot 3 (by decide),
   locator_boundary_major.2.1 exHtml exRoot⟩

end UseA11y
